import Mathlib

/-!
Verification of the openziti ziti-sdk-swift core.

Part one embeds the C shim in src/lib/ziti.c: the string helpers
(copyStringArray, copyString, freeString, freeStringArray) and the
ziti_dump plumbing (ziti_dump_printer, ziti_dump_wrapper).  C pointers
are modelled as Option values (none is NULL), C arrays as lists of their
slots, and a free call by the list of pointers it releases.

Part two models the tunneled-connection core described in spec.md
(state machine, connection registry, circuit dialer, backpressure pipe,
DNS intercept table); that code lives outside src/ and each such
definition carries a doc comment starting with Modelled from the spec.
-/

namespace ZitiShim

/-- copyStringArray from src/lib/ziti.c.  The C code returns NULL when
count is 0; otherwise it allocates count + 1 pointer slots with calloc
(zero-filled, so the final slot is NULL) and copies the first count
slots from arr with memcpy, leaving the input untouched. -/
def copyStringArray (arr : List (Option String)) (count : Nat) :
    Option (List (Option String)) :=
  if count = 0 then none
  else some (arr.take count ++ [none])

/-- copyString from src/lib/ziti.c: strdup of a non-NULL argument
(fresh allocation with the same character contents, modelled by the
string value itself), NULL on a NULL argument. -/
def copyString (str : Option String) : Option String :=
  match str with
  | some s => some s
  | none => none

/-- freeString from src/lib/ziti.c, modelled by the list of pointers the
call frees: the guard frees nothing on NULL and frees exactly the given
pointer otherwise. -/
def freeString (str : Option Nat) : List Nat :=
  match str with
  | some p => [p]
  | none => []

/-- freeStringArray from src/lib/ziti.c, with the same NULL guard as
freeString. -/
def freeStringArray (arr : Option Nat) : List Nat :=
  match arr with
  | some p => [p]
  | none => []

/-- Size of the static buffer char msg[4096] in ziti_dump_printer. -/
def dumpBufSize : Nat := 4096

/-- vsnprintf into a buffer of dumpBufSize bytes: the formatted text is
truncated to at most dumpBufSize - 1 characters, the last byte holding
the NUL terminator. -/
def vsnprintfBuf (formatted : String) : String :=
  String.mk (formatted.data.take (dumpBufSize - 1))

/-- ziti_dump_ctx from src/lib/ziti.c: the caller context and printer
callback packed together for ziti_dump_printer. -/
structure ziti_dump_ctx (γ : Type) where
  ctx : γ
  printer : γ → String → Int

/-- ziti_dump_printer from src/lib/ziti.c: formats its varargs into the
static buffer with vsnprintf (truncating) and returns the wrapped
printer applied to the caller context and the buffered message. -/
def ziti_dump_printer {γ : Type} (zdctx : ziti_dump_ctx γ)
    (formatted : String) : Int :=
  zdctx.printer zdctx.ctx (vsnprintfBuf formatted)

/-- Modelled from the spec: ziti_dump is an external collaborator (the
underlying C SDK dump) missing from src/.  Per the spec dumpState is a
read-only diagnostic snapshot, so it is modelled as invoking the given
printer callback once per formatted dump message, in order, returning
the tunnel state unchanged. -/
def ziti_dump {σ γ : Type} (dumpMsgs : σ → List String) (st : σ)
    (printer : γ → String → Int) (pctx : γ) : σ × List Int :=
  (st, (dumpMsgs st).map (printer pctx))

/-- ziti_dump_wrapper from src/lib/ziti.c: packs the caller printer and
context into a stack ziti_dump_ctx and runs ziti_dump with
ziti_dump_printer as the callback. -/
def ziti_dump_wrapper {σ γ : Type} (dumpMsgs : σ → List String) (st : σ)
    (printer : γ → String → Int) (ctx : γ) : σ × List Int :=
  ziti_dump dumpMsgs st ziti_dump_printer { ctx := ctx, printer := printer }

end ZitiShim

namespace TunnelCore

/-- Modelled from the spec: the states of the Tunneled Connection state
machine of section 4.4, missing from src/ (only bridging declarations
are there). -/
inductive ConnState where
  | DIALING
  | ESTABLISHED
  | CLOSING_LOCAL
  | CLOSING_REMOTE
  | CLOSED
  deriving DecidableEq, Repr

/-- Modelled from the spec: an EOF (or error, treated as EOF) signal
from one of the two sides of a tunneled connection. -/
inductive EofEvent where
  | localEOF
  | remoteEOF
  deriving DecidableEq, Repr

/-- Modelled from the spec: a Tunneled Connection together with release
counters for its circuit, local handle and registry entry; each counter
records how many times that resource has been released. -/
structure Conn where
  state : ConnState
  circuitReleased : Nat
  handleReleased : Nat
  registryReleased : Nat
  deriving DecidableEq, Repr

/-- Modelled from the spec, section 4.4: the pure transition function on
states for EOF signals.  From ESTABLISHED either side's EOF moves to the
matching CLOSING state; in a CLOSING state the other side's EOF
completes the half-close into CLOSED; CLOSED is terminal; an EOF during
DIALING aborts straight to CLOSED (dial failure / reset). -/
def nextState : ConnState → EofEvent → ConnState
  | .DIALING, _ => .CLOSED
  | .ESTABLISHED, .localEOF => .CLOSING_LOCAL
  | .ESTABLISHED, .remoteEOF => .CLOSING_REMOTE
  | .CLOSING_LOCAL, .localEOF => .CLOSING_LOCAL
  | .CLOSING_LOCAL, .remoteEOF => .CLOSED
  | .CLOSING_REMOTE, .localEOF => .CLOSED
  | .CLOSING_REMOTE, .remoteEOF => .CLOSING_REMOTE
  | .CLOSED, _ => .CLOSED

/-- Modelled from the spec: one EOF step of a Tunneled Connection; all
resources are released exactly on entry to CLOSED (a transition from a
non-CLOSED state into CLOSED), never again afterwards. -/
def stepEof (c : Conn) (e : EofEvent) : Conn :=
  let s := nextState c.state e
  if c.state ≠ ConnState.CLOSED ∧ s = ConnState.CLOSED then
    { state := s
      circuitReleased := c.circuitReleased + 1
      handleReleased := c.handleReleased + 1
      registryReleased := c.registryReleased + 1 }
  else
    { c with state := s }

/-- Modelled from the spec: a run of the state machine over a sequence
of interleaved EOF signals. -/
def runEof (c : Conn) (evs : List EofEvent) : Conn :=
  evs.foldl stepEof c

/-- Modelled from the spec: a freshly established connection, no
resource released yet. -/
def establishedConn : Conn :=
  { state := ConnState.ESTABLISHED
    circuitReleased := 0
    handleReleased := 0
    registryReleased := 0 }

/-- Modelled from the spec, section 5 Cancellation: closing a Tunneled
Connection (explicit API call or shutdown) cancels any outstanding dial
and always leads to CLOSED, releasing resources exactly once on entry
to CLOSED. -/
def close (c : Conn) : Conn :=
  if c.state = ConnState.CLOSED then c
  else
    { state := ConnState.CLOSED
      circuitReleased := c.circuitReleased + 1
      handleReleased := c.handleReleased + 1
      registryReleased := c.registryReleased + 1 }

/-- Modelled from the spec: the registry error taxonomy of section 7. -/
inductive RegistryError where
  | DuplicateKey
  deriving DecidableEq, Repr

/-- Modelled from the spec: the Connection Registry of section 4.5, a
table of weak (identity-only) entries keyed by local 5-tuple. -/
structure Registry (κ ι : Type) where
  entries : List (κ × ι)
  deriving DecidableEq, Repr

/-- Modelled from the spec: whether a still-active entry for the key is
present. -/
def Registry.containsKey {κ ι : Type} [DecidableEq κ] (r : Registry κ ι)
    (k : κ) : Bool :=
  r.entries.any (fun p => decide (p.1 = k))

/-- Modelled from the spec: lookup of section 4.5, returning the
connection identity registered for the key, if any. -/
def Registry.lookup {κ ι : Type} [DecidableEq κ] (r : Registry κ ι)
    (k : κ) : Option ι :=
  (r.entries.find? (fun p => decide (p.1 = k))).map (fun p => p.2)

/-- Modelled from the spec: register of section 4.5.  A duplicate
registration against a still-active entry is the error DuplicateKey and
leaves the registry unchanged; otherwise the entry is added. -/
def Registry.register {κ ι : Type} [DecidableEq κ] (r : Registry κ ι)
    (k : κ) (c : ι) : Registry κ ι × Option RegistryError :=
  if r.containsKey k then (r, some RegistryError.DuplicateKey)
  else ({ entries := (k, c) :: r.entries }, none)

/-- Modelled from the spec: unregister of section 4.5, removing the
entry for the key. -/
def Registry.unregister {κ ι : Type} [DecidableEq κ] (r : Registry κ ι)
    (k : κ) : Registry κ ι :=
  { entries := r.entries.filter (fun p => !decide (p.1 = k)) }

/-- Modelled from the spec: the result of a circuit dial of section 4.3,
either a Circuit bound to the hosting terminator it was dialed against,
or DialError ServiceUnavailable once the attempt budget is exhausted. -/
inductive DialResult (τ : Type) where
  | circuit (terminator : τ)
  | serviceUnavailable
  deriving DecidableEq, Repr

/-- Modelled from the spec, section 4.3: the Circuit Dialer tries the
known hosting terminators in policy order, each paired with whether the
transport attempt to it succeeds; it stops at the first success and
returns ServiceUnavailable after failing every terminator, reporting
also the number of attempts made (never more than the budget, never a
silent extra retry). -/
def dialAttempts {τ : Type} : List (τ × Bool) → DialResult τ × Nat
  | [] => (DialResult.serviceUnavailable, 0)
  | (t, ok) :: rest =>
    if ok then (DialResult.circuit t, 1)
    else
      let r := dialAttempts rest
      (r.1, r.2 + 1)

/-- Modelled from the spec, section 4.4: static configuration of one
byte pipe: low and high watermarks of the pending-bytes accounting and
the maximum size of one read from the source. -/
structure PipeCfg where
  lowWater : Nat
  highWater : Nat
  maxRead : Nat

/-- Modelled from the spec: the flow-control state of the local-to-remote
pipe: accumulated pending bytes, whether reads from the source are
paused by backpressure, and whether one read is currently in flight. -/
structure PipeState where
  pending : Nat
  paused : Bool
  inflight : Bool
  deriving DecidableEq, Repr

/-- Modelled from the spec, section 4.4 backpressure: one transition of
the pipe.  A read may start only while not paused and with no read in
flight; a completed read of n bytes (n at most maxRead) adds n pending
bytes and pauses the pipe when pending reaches the high watermark; the
remote consuming n bytes removes them and resumes reads once pending
drops below the low watermark.  Holding the remote-read rate at zero is
the special case of runs with no consume step. -/
inductive PipeStep (cfg : PipeCfg) : PipeState → PipeState → Prop where
  | start (s : PipeState) :
      s.paused = false → s.inflight = false →
      PipeStep cfg s { s with inflight := true }
  | complete (s : PipeState) (n : Nat) :
      n ≤ cfg.maxRead → s.inflight = true →
      PipeStep cfg s
        { pending := s.pending + n
          paused := if cfg.highWater ≤ s.pending + n then true else s.paused
          inflight := false }
  | consume (s : PipeState) (n : Nat) :
      n ≤ s.pending →
      PipeStep cfg s
        { pending := s.pending - n
          paused := if s.pending - n < cfg.lowWater then false else s.paused
          inflight := s.inflight }

/-- Modelled from the spec: the states of the pipe reachable from the
empty, unpaused, idle initial state. -/
inductive PipeReachable (cfg : PipeCfg) : PipeState → Prop where
  | init : PipeReachable cfg { pending := 0, paused := false, inflight := false }
  | step {s s' : PipeState} :
      PipeReachable cfg s → PipeStep cfg s s' → PipeReachable cfg s'

/-- Inductive invariant of the backpressure pipe: pending bytes never
exceed the high watermark plus one maximal in-flight read; while reads
are not paused, and while a read is in flight, pending is strictly
below the high watermark; while paused, pending has not dropped below
the low watermark (a drop below it unpauses at once). -/
def PipeInv (cfg : PipeCfg) (s : PipeState) : Prop :=
  s.pending ≤ cfg.highWater + cfg.maxRead ∧
  (s.paused = false → s.pending < cfg.highWater) ∧
  (s.inflight = true → s.pending < cfg.highWater) ∧
  (s.paused = true → cfg.lowWater ≤ s.pending)

/-- Modelled from the spec: the DNS Intercept Table of section 3, with
the reserved address pool split into the free addresses and the
hostname to synthetic-address mapping currently in force. -/
structure DnsTable (η α : Type) where
  free : List α
  table : List (η × α)

/-- Modelled from the spec: the synthetic addresses currently assigned
by the table. -/
def DnsTable.addrs {η α : Type} (t : DnsTable η α) : List α :=
  t.table.map (fun p => p.2)

/-- Modelled from the spec: the empty table over a reserved pool, every
pool address free. -/
def DnsTable.init {η α : Type} (pool : List α) : DnsTable η α :=
  { free := pool, table := [] }

/-- Modelled from the spec: first resolution of a hostname assigns it a
synthetic address drawn from the free part of the reserved pool; a
hostname already mapped keeps its address, and nothing is assigned when
the pool is exhausted. -/
def DnsTable.assign {η α : Type} [DecidableEq η] (t : DnsTable η α)
    (h : η) : DnsTable η α :=
  if t.table.any (fun p => decide (p.1 = h)) then t
  else
    match t.free with
    | [] => t
    | a :: rest => { free := rest, table := (h, a) :: t.table }

/-- Modelled from the spec: explicit release of a hostname mapping (the
backing Service Route was removed); its synthetic address returns to
the free pool and only then becomes available for reuse. -/
def DnsTable.release {η α : Type} [DecidableEq η] (t : DnsTable η α)
    (h : η) : DnsTable η α :=
  { free := (t.table.filter (fun p => decide (p.1 = h))).map (fun p => p.2)
      ++ t.free
    table := t.table.filter (fun p => !decide (p.1 = h)) }

/-- Modelled from the spec: the table states reachable from the empty
table over a given reserved pool by assignments and releases. -/
inductive DnsReachable {η α : Type} [DecidableEq η] (pool : List α) :
    DnsTable η α → Prop where
  | init : DnsReachable pool (DnsTable.init pool)
  | assign {t : DnsTable η α} (h : η) :
      DnsReachable pool t → DnsReachable pool (t.assign h)
  | release {t : DnsTable η α} (h : η) :
      DnsReachable pool t → DnsReachable pool (t.release h)

/-- Inductive invariant of the DNS Intercept Table: the assigned
synthetic addresses and the free addresses together hold no duplicates,
and all of them come from the reserved pool. -/
def DnsInv {η α : Type} (pool : List α) (t : DnsTable η α) : Prop :=
  (t.addrs ++ t.free).Nodup ∧ ∀ a ∈ t.addrs ++ t.free, a ∈ pool

end TunnelCore

namespace ZitiShim

/-- C8: copyStringArray(arr, 0) returns NULL, and for count > 0 within
the bounds of arr it returns a freshly allocated array of count + 1
slots whose first count slots equal the corresponding slots of arr and
whose slot at index count is NULL, so the result is NULL-terminated. -/
theorem copyStringArray_spec (arr : List (Option String)) (count : Nat)
    (hpos : 0 < count) (hlen : count ≤ arr.length) :
    copyStringArray arr 0 = none ∧
    ∃ res, copyStringArray arr count = some res ∧
      res.length = count + 1 ∧
      res.take count = arr.take count ∧
      res[count]? = some none := by
  have htk : (arr.take count).length = count := by
    simp [List.length_take, Nat.min_eq_left hlen]
  refine ⟨rfl, arr.take count ++ [none], ?_, ?_, ?_, ?_⟩
  · simp [copyStringArray, Nat.pos_iff_ne_zero.mp hpos]
  · simp [htk]
  · rw [List.take_left' htk]
  · rw [List.getElem?_append_right (le_of_eq htk)]
    simp [htk]

/-- Witness for copyStringArray_spec at arr = [a, b, c], count = 2. -/
theorem copyStringArray_spec_witness :
    (0 < 2 ∧ 2 ≤ ([some "a", some "b", some "c"] : List (Option String)).length) ∧
    (copyStringArray [some "a", some "b", some "c"] 0 = none ∧
     ∃ res, copyStringArray [some "a", some "b", some "c"] 2 = some res ∧
       res.length = 2 + 1 ∧
       res.take 2 = [some "a", some "b", some "c"].take 2 ∧
       res[2]? = some none) :=
  ⟨⟨by decide, by decide⟩,
   copyStringArray_spec [some "a", some "b", some "c"] 2 (by decide) (by decide)⟩

/-- C9: copyString, freeString and freeStringArray are total on NULL:
copyString(NULL) is NULL, freeString(NULL) and freeStringArray(NULL)
free nothing, and copyString of a non-NULL string is a copy with the
same character contents. -/
theorem null_safety_spec (s : String) :
    copyString none = none ∧
    freeString none = [] ∧
    freeStringArray none = [] ∧
    copyString (some s) = some s :=
  ⟨rfl, rfl, rfl, rfl⟩

/-- C10: every message ziti_dump_printer hands to the wrapped printer
fits the 4096-byte static buffer (at most 4095 characters plus the NUL
terminator), output that fits is passed through untruncated, and the
printer's return value is returned unchanged. -/
theorem ziti_dump_printer_bounded {γ : Type} (zdctx : ziti_dump_ctx γ)
    (formatted short : String) (hfit : short.length + 1 ≤ dumpBufSize) :
    (vsnprintfBuf formatted).length + 1 ≤ dumpBufSize ∧
    ziti_dump_printer zdctx formatted =
      zdctx.printer zdctx.ctx (vsnprintfBuf formatted) ∧
    vsnprintfBuf short = short := by
  refine ⟨?_, rfl, ?_⟩
  · have hb : (formatted.data.take (dumpBufSize - 1)).length ≤ dumpBufSize - 1 :=
      List.length_take_le _ _
    have : (vsnprintfBuf formatted).length = (formatted.data.take (dumpBufSize - 1)).length := rfl
    rw [this]
    have : 0 < dumpBufSize := by decide
    omega
  · have hs : short.data.length ≤ dumpBufSize - 1 := by
      have : short.length = short.data.length := rfl
      omega
    show String.mk (short.data.take (dumpBufSize - 1)) = short
    rw [List.take_of_length_le hs]

/-- Witness for ziti_dump_printer_bounded at a concrete context and
messages. -/
theorem ziti_dump_printer_bounded_witness :
    ("hi" : String).length + 1 ≤ dumpBufSize ∧
    ((vsnprintfBuf "abc").length + 1 ≤ dumpBufSize ∧
     ziti_dump_printer ⟨(0 : Int), fun c s => c + Int.ofNat s.length⟩ "abc" =
       (ziti_dump_ctx.mk (0 : Int) (fun c s => c + Int.ofNat s.length)).printer
         (ziti_dump_ctx.mk (0 : Int) (fun c s => c + Int.ofNat s.length)).ctx
         (vsnprintfBuf "abc") ∧
     vsnprintfBuf "hi" = "hi") :=
  ⟨by decide,
   ziti_dump_printer_bounded ⟨(0 : Int), fun c s => c + Int.ofNat s.length⟩
     "abc" "hi" (by decide)⟩

/-- C7: the dump wrapper is read-only and faithful: it leaves the
tunnel state (every connection and the registry) unchanged, and each
message produced by the underlying dump is delivered to the caller's
visitor callback together with the caller's context. -/
theorem ziti_dump_wrapper_readonly {σ γ : Type} (dumpMsgs : σ → List String)
    (st : σ) (visitor : γ → String → Int) (ctx : γ) :
    (ziti_dump_wrapper dumpMsgs st visitor ctx).1 = st ∧
    (ziti_dump_wrapper dumpMsgs st visitor ctx).2 =
      (dumpMsgs st).map (fun m => visitor ctx (vsnprintfBuf m)) := by
  exact ⟨rfl, by simp [ziti_dump_wrapper, ziti_dump, ziti_dump_printer]⟩

end ZitiShim

namespace TunnelCore

/-- An EOF step leaves a CLOSED connection untouched: no state change
and no further release. -/
theorem stepEof_closed (c : Conn) (h : c.state = ConnState.CLOSED)
    (e : EofEvent) : stepEof c e = c := by
  cases c with
  | mk st a b d =>
    simp only at h
    subst h
    cases e <;> simp [stepEof, nextState]

/-- A run of EOF signals leaves a CLOSED connection untouched. -/
theorem runEof_closed (c : Conn) (h : c.state = ConnState.CLOSED)
    (evs : List EofEvent) : runEof c evs = c := by
  induction evs generalizing c with
  | nil => rfl
  | cons e tl ih =>
    show runEof (stepEof c e) tl = c
    rw [stepEof_closed c h e, ih c h]

/-- Characterization of runs from CLOSING_LOCAL: the connection reaches
CLOSED, releasing everything once, exactly when a remote EOF occurs. -/
theorem runEof_closing_local (a b d : Nat) (evs : List EofEvent) :
    runEof ⟨ConnState.CLOSING_LOCAL, a, b, d⟩ evs =
      if EofEvent.remoteEOF ∈ evs then
        ⟨ConnState.CLOSED, a + 1, b + 1, d + 1⟩
      else ⟨ConnState.CLOSING_LOCAL, a, b, d⟩ := by
  induction evs with
  | nil => rfl
  | cons e tl ih =>
    cases e with
    | localEOF =>
      have hstep : stepEof ⟨ConnState.CLOSING_LOCAL, a, b, d⟩ EofEvent.localEOF =
          ⟨ConnState.CLOSING_LOCAL, a, b, d⟩ := by
        simp [stepEof, nextState]
      show runEof (stepEof ⟨ConnState.CLOSING_LOCAL, a, b, d⟩ EofEvent.localEOF) tl = _
      rw [hstep, ih]
      simp
    | remoteEOF =>
      have hstep : stepEof ⟨ConnState.CLOSING_LOCAL, a, b, d⟩ EofEvent.remoteEOF =
          ⟨ConnState.CLOSED, a + 1, b + 1, d + 1⟩ := by
        simp [stepEof, nextState]
      show runEof (stepEof ⟨ConnState.CLOSING_LOCAL, a, b, d⟩ EofEvent.remoteEOF) tl = _
      rw [hstep, runEof_closed _ rfl]
      simp

/-- Characterization of runs from CLOSING_REMOTE, symmetric to
runEof_closing_local. -/
theorem runEof_closing_remote (a b d : Nat) (evs : List EofEvent) :
    runEof ⟨ConnState.CLOSING_REMOTE, a, b, d⟩ evs =
      if EofEvent.localEOF ∈ evs then
        ⟨ConnState.CLOSED, a + 1, b + 1, d + 1⟩
      else ⟨ConnState.CLOSING_REMOTE, a, b, d⟩ := by
  induction evs with
  | nil => rfl
  | cons e tl ih =>
    cases e with
    | remoteEOF =>
      have hstep : stepEof ⟨ConnState.CLOSING_REMOTE, a, b, d⟩ EofEvent.remoteEOF =
          ⟨ConnState.CLOSING_REMOTE, a, b, d⟩ := by
        simp [stepEof, nextState]
      show runEof (stepEof ⟨ConnState.CLOSING_REMOTE, a, b, d⟩ EofEvent.remoteEOF) tl = _
      rw [hstep, ih]
      simp
    | localEOF =>
      have hstep : stepEof ⟨ConnState.CLOSING_REMOTE, a, b, d⟩ EofEvent.localEOF =
          ⟨ConnState.CLOSED, a + 1, b + 1, d + 1⟩ := by
        simp [stepEof, nextState]
      show runEof (stepEof ⟨ConnState.CLOSING_REMOTE, a, b, d⟩ EofEvent.localEOF) tl = _
      rw [hstep, runEof_closed _ rfl]
      simp

/-- C1: for every sequence of interleaved local-side and remote-side EOF
signals on an ESTABLISHED connection containing at least one signal from
each side, the connection reaches the terminal state CLOSED, and its
circuit, local handle and registry entry are each released exactly once,
whichever direction triggered the transition; any further EOF signals
change nothing (CLOSED is terminal, no second release). -/
theorem established_eof_closes_once (evs more : List EofEvent)
    (hl : EofEvent.localEOF ∈ evs) (hr : EofEvent.remoteEOF ∈ evs) :
    runEof establishedConn evs =
      { state := ConnState.CLOSED
        circuitReleased := 1
        handleReleased := 1
        registryReleased := 1 } ∧
    runEof establishedConn (evs ++ more) = runEof establishedConn evs := by
  have hmain : runEof establishedConn evs =
      ⟨ConnState.CLOSED, 1, 1, 1⟩ := by
    cases evs with
    | nil => cases hl
    | cons e tl =>
      cases e with
      | localEOF =>
        have hstep : stepEof establishedConn EofEvent.localEOF =
            ⟨ConnState.CLOSING_LOCAL, 0, 0, 0⟩ := by
          simp [stepEof, nextState, establishedConn]
        have htl : EofEvent.remoteEOF ∈ tl := by
          cases hr with
          | tail _ h => exact h
        show runEof (stepEof establishedConn EofEvent.localEOF) tl = _
        rw [hstep, runEof_closing_local]
        simp [htl]
      | remoteEOF =>
        have hstep : stepEof establishedConn EofEvent.remoteEOF =
            ⟨ConnState.CLOSING_REMOTE, 0, 0, 0⟩ := by
          simp [stepEof, nextState, establishedConn]
        have htl : EofEvent.localEOF ∈ tl := by
          cases hl with
          | tail _ h => exact h
        show runEof (stepEof establishedConn EofEvent.remoteEOF) tl = _
        rw [hstep, runEof_closing_remote]
        simp [htl]
  refine ⟨hmain, ?_⟩
  show (evs ++ more).foldl stepEof establishedConn = runEof establishedConn evs
  rw [List.foldl_append]
  show runEof (runEof establishedConn evs) more = _
  rw [hmain, runEof_closed _ rfl]

/-- Witness for established_eof_closes_once on the signal sequence
[localEOF, remoteEOF] followed by a further localEOF. -/
theorem established_eof_closes_once_witness :
    (EofEvent.localEOF ∈ [EofEvent.localEOF, EofEvent.remoteEOF] ∧
     EofEvent.remoteEOF ∈ [EofEvent.localEOF, EofEvent.remoteEOF]) ∧
    (runEof establishedConn [EofEvent.localEOF, EofEvent.remoteEOF] =
      { state := ConnState.CLOSED
        circuitReleased := 1
        handleReleased := 1
        registryReleased := 1 } ∧
     runEof establishedConn
        ([EofEvent.localEOF, EofEvent.remoteEOF] ++ [EofEvent.localEOF]) =
      runEof establishedConn [EofEvent.localEOF, EofEvent.remoteEOF]) :=
  ⟨⟨by decide, by decide⟩,
   established_eof_closes_once [EofEvent.localEOF, EofEvent.remoteEOF]
     [EofEvent.localEOF] (by decide) (by decide)⟩

end TunnelCore

namespace TunnelCore

/-- Closing an already-CLOSED connection changes nothing. -/
theorem close_of_closed (c : Conn) (h : c.state = ConnState.CLOSED) :
    close c = c := by
  simp [close, h]

/-- The state after close is always CLOSED. -/
theorem close_state (c : Conn) : (close c).state = ConnState.CLOSED := by
  unfold close
  split
  case isTrue h => exact h
  case isFalse h => rfl

/-- C5: close is idempotent and total: from any state (including a dial
in progress, which it cancels) a single close lands the connection in
CLOSED, never an intermediate state, and applying close any positive
number of times yields exactly the same final connection as applying it
once, so resources are released exactly once. -/
theorem close_idempotent (c : Conn) (n : Nat) (hn : 1 ≤ n) :
    (close c).state = ConnState.CLOSED ∧
    close^[n] c = close c := by
  refine ⟨close_state c, ?_⟩
  obtain ⟨m, rfl⟩ : ∃ m, n = m + 1 := ⟨n - 1, by omega⟩
  rw [Function.iterate_succ_apply]
  induction m with
  | zero => rfl
  | succ k ih =>
    rw [Function.iterate_succ_apply, close_of_closed (close c) (close_state c),
      ih (by omega)]

/-- Witness for close_idempotent: closing a dialing connection three
times equals closing it once, and closes it. -/
theorem close_idempotent_witness :
    1 ≤ 3 ∧
    ((close ⟨ConnState.DIALING, 0, 0, 0⟩).state = ConnState.CLOSED ∧
     close^[3] ⟨ConnState.DIALING, 0, 0, 0⟩ = close ⟨ConnState.DIALING, 0, 0, 0⟩) :=
  ⟨by decide, close_idempotent ⟨ConnState.DIALING, 0, 0, 0⟩ 3 (by decide)⟩

end TunnelCore

namespace TunnelCore

/-- C3: if the first N - 1 hosting terminators all fail and the Nth
attempt succeeds, dial returns a Circuit bound to the Nth terminator
after exactly N attempts; if every terminator in the budget fails, dial
returns ServiceUnavailable after exactly one attempt per terminator,
never silently retrying past the budget. -/
theorem dial_retry_spec {τ : Type} (failed rest all : List (τ × Bool)) (t : τ)
    (hfail : (failed.all fun p => !p.2) = true)
    (hall : (all.all fun p => !p.2) = true) :
    dialAttempts (failed ++ (t, true) :: rest) =
      (DialResult.circuit t, failed.length + 1) ∧
    dialAttempts all = (DialResult.serviceUnavailable, all.length) := by
  constructor
  · induction failed with
    | nil => simp [dialAttempts]
    | cons p tl ih =>
      obtain ⟨t₀, b₀⟩ := p
      have hb : b₀ = false := by
        have := (List.all_eq_true.mp hfail) (t₀, b₀) (List.mem_cons_self _ _)
        simpa using this
      have htl : (tl.all fun p => !p.2) = true := by
        rw [List.all_eq_true] at hfail ⊢
        exact fun x hx => hfail x (List.mem_cons_of_mem _ hx)
      subst hb
      simp only [List.cons_append, dialAttempts, Bool.false_eq_true, if_false]
      rw [List.append_eq, ih htl]
      simp
  · induction all with
    | nil => rfl
    | cons p tl ih =>
      obtain ⟨t₀, b₀⟩ := p
      have hb : b₀ = false := by
        have := (List.all_eq_true.mp hall) (t₀, b₀) (List.mem_cons_self _ _)
        simpa using this
      have htl : (tl.all fun p => !p.2) = true := by
        rw [List.all_eq_true] at hall ⊢
        exact fun x hx => hall x (List.mem_cons_of_mem _ hx)
      subst hb
      simp only [dialAttempts, Bool.false_eq_true, if_false]
      rw [ih htl]
      simp [Nat.add_comm]

/-- Witness for dial_retry_spec: two failing terminators before a
succeeding third give a circuit on terminator 3 after 3 attempts, and a
budget of three failing terminators gives ServiceUnavailable after 3
attempts. -/
theorem dial_retry_spec_witness :
    ((([((1 : Nat), false), (2, false)] : List (Nat × Bool)).all fun p => !p.2) = true ∧
     (([(1, false), (2, false), (3, false)] : List (Nat × Bool)).all fun p => !p.2) = true) ∧
    (dialAttempts ([((1 : Nat), false), (2, false)] ++ ((3 : Nat), true) :: []) =
      (DialResult.circuit 3, [((1 : Nat), false), (2, false)].length + 1) ∧
     dialAttempts ([(1, false), (2, false), (3, false)] : List (Nat × Bool)) =
      (DialResult.serviceUnavailable,
        ([(1, false), (2, false), (3, false)] : List (Nat × Bool)).length)) :=
  ⟨⟨by decide, by decide⟩,
   dial_retry_spec [((1 : Nat), false), (2, false)] []
     [(1, false), (2, false), (3, false)] 3 (by decide) (by decide)⟩

/-- Unregistering a key removes every still-active entry for it. -/
theorem containsKey_unregister {κ ι : Type} [DecidableEq κ]
    (r : Registry κ ι) (k : κ) :
    (r.unregister k).containsKey k = false := by
  simp only [Registry.containsKey, Registry.unregister]
  rw [List.any_eq_false]
  intro p hp
  have h2 := (List.mem_filter.mp hp).2
  simp at h2
  simp [h2]

/-- C4: registering a key whose earlier registration is still active
returns DuplicateKey and leaves the registry unchanged; after the prior
entry is unregistered, registering the same key succeeds and lookup
finds the new connection. -/
theorem registry_duplicate_key {κ ι : Type} [DecidableEq κ]
    (r : Registry κ ι) (k : κ) (c c₂ : ι)
    (h : r.containsKey k = true) :
    r.register k c = (r, some RegistryError.DuplicateKey) ∧
    ((r.unregister k).register k c₂).2 = none ∧
    ((r.unregister k).register k c₂).1.lookup k = some c₂ := by
  refine ⟨by simp [Registry.register, h], ?_, ?_⟩
  · simp [Registry.register, containsKey_unregister r k]
  · simp [Registry.register, containsKey_unregister r k, Registry.lookup,
      List.find?]

/-- Witness for registry_duplicate_key on the one-entry registry
mapping key 1 to connection 10. -/
theorem registry_duplicate_key_witness :
    (Registry.mk [((1 : Nat), (10 : Nat))]).containsKey 1 = true ∧
    ((Registry.mk [((1 : Nat), (10 : Nat))]).register 1 20 =
      (Registry.mk [((1 : Nat), (10 : Nat))], some RegistryError.DuplicateKey) ∧
     (((Registry.mk [((1 : Nat), (10 : Nat))]).unregister 1).register 1 30).2 = none ∧
     (((Registry.mk [((1 : Nat), (10 : Nat))]).unregister 1).register 1 30).1.lookup 1 =
       some 30) :=
  ⟨by decide,
   registry_duplicate_key (Registry.mk [((1 : Nat), (10 : Nat))]) 1 20 30 (by decide)⟩

end TunnelCore

namespace TunnelCore

/-- The backpressure invariant holds in the initial pipe state. -/
theorem pipeInv_init (cfg : PipeCfg) (hHW : 0 < cfg.highWater) :
    PipeInv cfg { pending := 0, paused := false, inflight := false } := by
  unfold PipeInv
  refine ⟨Nat.zero_le _, fun _ => hHW, ?_, ?_⟩
  · intro h
    exact absurd h (by decide)
  · intro h
    exact absurd h (by decide)

/-- The backpressure invariant is preserved by every pipe transition. -/
theorem pipeInv_step (cfg : PipeCfg) (s s' : PipeState)
    (hLW : cfg.lowWater ≤ cfg.highWater)
    (hinv : PipeInv cfg s) (hstep : PipeStep cfg s s') : PipeInv cfg s' := by
  unfold PipeInv at hinv ⊢
  obtain ⟨h1, h2, h3, h4⟩ := hinv
  cases hstep with
  | start hp hi =>
    exact ⟨h1, h2, fun _ => h2 hp, h4⟩
  | complete n hn hi =>
    have hlt : s.pending < cfg.highWater := h3 hi
    dsimp only
    refine ⟨by omega, ?_, ?_, ?_⟩
    · intro hp
      by_cases hc : cfg.highWater ≤ s.pending + n
      · rw [if_pos hc] at hp
        exact absurd hp (by decide)
      · omega
    · intro hi'
      exact absurd hi' (by decide)
    · intro hp
      by_cases hc : cfg.highWater ≤ s.pending + n
      · omega
      · rw [if_neg hc] at hp
        have := h4 hp
        omega
  | consume n hn =>
    dsimp only
    refine ⟨by omega, ?_, ?_, ?_⟩
    · intro hp
      by_cases hc : s.pending - n < cfg.lowWater
      · omega
      · rw [if_neg hc] at hp
        have := h2 hp
        omega
    · intro hi'
      have := h3 hi'
      omega
    · intro hp
      by_cases hc : s.pending - n < cfg.lowWater
      · rw [if_pos hc] at hp
        exact absurd hp (by decide)
      · omega

/-- The backpressure invariant holds in every reachable pipe state. -/
theorem pipeInv_reachable (cfg : PipeCfg) (s : PipeState)
    (hLW : cfg.lowWater ≤ cfg.highWater) (hHW : 0 < cfg.highWater)
    (hre : PipeReachable cfg s) : PipeInv cfg s := by
  induction hre with
  | init => exact pipeInv_init cfg hHW
  | step hr hs ih => exact pipeInv_step cfg _ _ hLW ih hs

/-- C2: in every reachable state of the local-to-remote pipe the pending
byte count never exceeds the high watermark plus one in-flight read;
while pending is below the low watermark reads are not paused (they have
resumed); and from a paused state with no read in flight no transition
grows the pending count — in particular with the remote-read rate held
at zero (no consume step ever shrinking pending) the buffer stops
growing once it crosses the high watermark. -/
theorem pipe_backpressure (cfg : PipeCfg) (s s' : PipeState)
    (hLW : cfg.lowWater ≤ cfg.highWater) (hHW : 0 < cfg.highWater)
    (hre : PipeReachable cfg s) :
    s.pending ≤ cfg.highWater + cfg.maxRead ∧
    (s.pending < cfg.lowWater → s.paused = false) ∧
    (PipeStep cfg s s' → s.paused = true → s.inflight = false →
      s'.pending ≤ s.pending) := by
  obtain ⟨h1, h2, h3, h4⟩ := pipeInv_reachable cfg s hLW hHW hre
  refine ⟨h1, ?_, ?_⟩
  · intro hlow
    cases hps : s.paused with
    | false => rfl
    | true =>
      have := h4 hps
      omega
  · intro hstep hps hif
    cases hstep with
    | start hp hi =>
      exact Nat.le_refl s.pending
    | complete n hn hi =>
      rw [hif] at hi
      exact absurd hi (by decide)
    | consume n hn =>
      dsimp only
      omega

/-- Witness for pipe_backpressure at watermarks 2/4, maximal read 3,
in the initial reachable state. -/
theorem pipe_backpressure_witness :
    ((2 : Nat) ≤ 4 ∧ (0 : Nat) < 4) ∧
    ((PipeState.mk 0 false false).pending ≤ 4 + 3 ∧
     ((PipeState.mk 0 false false).pending < 2 →
       (PipeState.mk 0 false false).paused = false) ∧
     (PipeStep (PipeCfg.mk 2 4 3) (PipeState.mk 0 false false)
        (PipeState.mk 0 false true) →
      (PipeState.mk 0 false false).paused = true →
      (PipeState.mk 0 false false).inflight = false →
      (PipeState.mk 0 false true).pending ≤ (PipeState.mk 0 false false).pending)) :=
  ⟨⟨by decide, by decide⟩,
   pipe_backpressure (PipeCfg.mk 2 4 3) (PipeState.mk 0 false false)
     (PipeState.mk 0 false true) (by decide) (by decide) PipeReachable.init⟩

end TunnelCore

namespace TunnelCore

/-- The DNS invariant holds in the empty table over a duplicate-free
reserved pool. -/
theorem dnsInv_init {η α : Type} (pool : List α) (hpool : pool.Nodup) :
    DnsInv pool (DnsTable.init (η := η) pool) := by
  unfold DnsInv DnsTable.init DnsTable.addrs
  exact ⟨by simpa using hpool, by simp⟩

/-- The DNS invariant is preserved by assigning a hostname. -/
theorem dnsInv_assign {η α : Type} [DecidableEq η] (pool : List α)
    (t : DnsTable η α) (h : η) (hinv : DnsInv pool t) :
    DnsInv pool (t.assign h) := by
  unfold DnsTable.assign
  by_cases hmap : (t.table.any fun p => decide (p.1 = h)) = true
  · rw [if_pos hmap]
    exact hinv
  · rw [if_neg hmap]
    obtain ⟨hnd, hsub⟩ := hinv
    cases hfree : t.free with
    | nil =>
      show DnsInv pool t
      exact ⟨hnd, hsub⟩
    | cons a rest =>
      have hnd' : (t.addrs ++ a :: rest).Nodup := by
        rw [← hfree]
        exact hnd
      have hsub' : ∀ x ∈ t.addrs ++ a :: rest, x ∈ pool := by
        rw [← hfree]
        exact hsub
      refine ⟨?_, ?_⟩
      · show ((a :: t.addrs) ++ rest).Nodup
        exact List.perm_middle.nodup_iff.mp hnd'
      · intro x hx
        have hx' : x ∈ a :: (t.addrs ++ rest) := hx
        exact hsub' x (List.perm_middle.mem_iff.mpr hx')

/-- The DNS invariant is preserved by releasing a hostname: its
addresses move from the assigned side back to the free pool. -/
theorem dnsInv_release {η α : Type} [DecidableEq η] (pool : List α)
    (t : DnsTable η α) (h : η) (hinv : DnsInv pool t) :
    DnsInv pool (t.release h) := by
  obtain ⟨hnd, hsub⟩ := hinv
  have h0 : List.Perm
      (t.table.filter (fun p => decide (p.1 = h)) ++
        t.table.filter (fun p => !decide (p.1 = h)))
      t.table :=
    List.filter_append_perm _ t.table
  have h1 : List.Perm
      (t.table.filter (fun p => !decide (p.1 = h)) ++
        t.table.filter (fun p => decide (p.1 = h)))
      t.table :=
    List.Perm.trans List.perm_append_comm h0
  have h2 : List.Perm
      ((t.table.filter (fun p => !decide (p.1 = h))).map (fun p => p.2) ++
        (t.table.filter (fun p => decide (p.1 = h))).map (fun p => p.2))
      t.addrs := by
    have h1m := List.Perm.map (fun p : η × α => p.2) h1
    rw [List.map_append] at h1m
    exact h1m
  have hperm : List.Perm ((t.release h).addrs ++ (t.release h).free)
      (t.addrs ++ t.free) := by
    show List.Perm
      ((t.table.filter (fun p => !decide (p.1 = h))).map (fun p => p.2) ++
        ((t.table.filter (fun p => decide (p.1 = h))).map (fun p => p.2) ++ t.free))
      _
    rw [← List.append_assoc]
    exact h2.append_right t.free
  exact ⟨hperm.nodup_iff.mpr hnd, fun a ha => hsub a (hperm.mem_iff.mp ha)⟩

/-- The DNS invariant holds in every reachable table state. -/
theorem dnsInv_reachable {η α : Type} [DecidableEq η] (pool : List α)
    (t : DnsTable η α) (hpool : pool.Nodup)
    (hre : DnsReachable pool t) : DnsInv pool t := by
  induction hre with
  | init => exact dnsInv_init pool hpool
  | assign h hr ih => exact dnsInv_assign pool _ h ih
  | release h hr ih => exact dnsInv_release pool _ h ih

/-- C6: in every reachable state of the DNS Intercept Table the
synthetic addresses assigned to hostnames are pairwise distinct, all
drawn from the reserved pool, and none of them is in the free pool — so
an assignment, which only draws from the free pool, can hand an address
to a new hostname only after the mapping previously holding it has been
explicitly released back to the pool. -/
theorem dns_unique_addresses {η α : Type} [DecidableEq η] (pool : List α)
    (t : DnsTable η α) (hpool : pool.Nodup)
    (hre : DnsReachable pool t) :
    t.addrs.Nodup ∧
    (∀ a ∈ t.addrs, a ∈ pool) ∧
    (∀ a ∈ t.addrs, a ∉ t.free) := by
  obtain ⟨hnd, hsub⟩ := dnsInv_reachable pool t hpool hre
  rw [List.nodup_append] at hnd
  exact ⟨hnd.1, fun a ha => hsub a (List.mem_append_left _ ha),
    fun a ha => hnd.2.2 ha⟩

/-- Witness for dns_unique_addresses: from the pool [0, 1], assign two
hostnames, release the first, assign a third; the invariant holds in
the resulting reachable state. -/
theorem dns_unique_addresses_witness :
    ([0, 1] : List Nat).Nodup ∧
    ((((((DnsTable.init (η := String) [0, 1]).assign
        "a").assign "b").release "a").assign "c").addrs.Nodup ∧
     (∀ a ∈ (((((DnsTable.init (η := String) [0, 1]).assign
        "a").assign "b").release "a").assign "c").addrs, a ∈ [0, 1]) ∧
     ∀ a ∈ (((((DnsTable.init (η := String) [0, 1]).assign
        "a").assign "b").release "a").assign "c").addrs,
       a ∉ (((((DnsTable.init (η := String) [0, 1]).assign
        "a").assign "b").release "a").assign "c").free) :=
  ⟨by decide,
   dns_unique_addresses [0, 1]
     (((((DnsTable.init (η := String) [0, 1]).assign "a").assign "b").release
        "a").assign "c")
     (by decide)
     (DnsReachable.assign "c" (DnsReachable.release "a"
        (DnsReachable.assign "b" (DnsReachable.assign "a" DnsReachable.init))))⟩

end TunnelCore
